import Mathlib

/-!
Options page of the footprint extension: settings and site-category store.

A shallow embedding of `src/footprint-extension/src/options/Options.jsx`.

* JavaScript strings are Lean `String`s; the string primitives the component
  calls (`trim`, `split`, `join`, `startsWith`) are written out on the
  underlying character lists.  A Lean string is a list of code points where a
  JavaScript string is a list of UTF-16 code units; the primitives used here
  look only at characters of the basic plane, so the two readings agree on
  every well-formed string.
* Plain JavaScript objects (`settings`, `userCategories`) are ordered lists of
  their own properties, with first-match lookup, in-place overwrite and key
  deletion.  A read `o[key]` with a key chosen at run time also finds the
  members inherited from `Object.prototype`; `objRead` tells the three cases
  apart, and a handler that calls an array method on such a member throws a
  `TypeError`: the two category handlers return `Except JsError State`.
  Properties keep their insertion order, also the integer-like keys that
  JavaScript enumerates first; no statement depends on the order of keys.
* The React component state, the `chrome.storage.local` area and the number of
  `chrome.storage.local.set` calls issued so far form one explicit `State`;
  every handler of the component is a function `State → State`.  Storage
  callbacks are run at once (the component never has two requests in flight in
  this model) and the three-second timer that blanks the status line is left
  out.
* The URL parser, `toLowerCase` and the constant `CATEGORIES.PRODUCTIVITY`
  (from `utils/categories.js`) are not part of the component: they are the
  fields of a `Platform` parameter.
-/

namespace Options

/-! ## JavaScript values and objects -/

/-- The values stored in the fields of the settings record: values that the
storage area gives back as they were written. -/
inductive JsVal where
  | bool (b : Bool)
  | num (n : Int)
  | str (s : String)
  | strList (l : List String)
  deriving DecidableEq, Repr

/-- A plain object: its own properties in insertion order. -/
abbrev Obj (α : Type) := List (String × α)

/-- Own-property read: the value of the own property `key` of `o`, `none` when
`o` has no own property of that name.  It is the whole of `o[key]` for every
key that is not the name of a member of `Object.prototype`. -/
def objGet {α : Type} : Obj α → String → Option α
  | [], _ => none
  | (k, v) :: rest, key => if k = key then some v else objGet rest key

/-- Property write `o[key] = v` (also `{...o, [key]: v}`): an existing property
keeps its place, a new one goes last. -/
def objSet {α : Type} : Obj α → String → α → Obj α
  | [], key, v => [(key, v)]
  | (k, x) :: rest, key, v =>
    if k = key then (k, v) :: rest else (k, x) :: objSet rest key v

/-- Property removal `delete o[key]`. -/
def objDelete {α : Type} (o : Obj α) (key : String) : Obj α :=
  o.filter (fun p => p.1 ≠ key)

/-- The names of the members of `Object.prototype`, which every plain object
inherits. -/
def objectPrototypeNames : List String :=
  ["constructor", "__defineGetter__", "__defineSetter__", "hasOwnProperty",
   "__lookupGetter__", "__lookupSetter__", "isPrototypeOf", "propertyIsEnumerable",
   "toString", "valueOf", "__proto__", "toLocaleString"]

/-- The result of the read `o[key]` on a plain object: the own property, or a
member inherited from `Object.prototype` (a function, or for `__proto__` the
prototype object: truthy, and without the array methods), or `undefined`. -/
inductive Read (α : Type) where
  | own (v : α)
  | inherited
  | undefined
  deriving DecidableEq, Repr

/-- Property read `o[key]` on a plain object: own properties first, then the
prototype. -/
def objRead {α : Type} (o : Obj α) (key : String) : Read α :=
  match objGet o key with
  | some v => .own v
  | none => if key ∈ objectPrototypeNames then .inherited else .undefined

/-- The exceptions a handler can end with. -/
inductive JsError where
  | typeError
  deriving DecidableEq, Repr

abbrev Settings := Obj JsVal

abbrev CategoryMap := Obj (List String)

/-! ## String primitives -/

/-- The characters removed by `String.prototype.trim`: ECMAScript WhiteSpace
and LineTerminator code points. -/
def isJsWhiteSpace (c : Char) : Bool :=
  let n := c.toNat
  n == 0x09 || n == 0x0A || n == 0x0B || n == 0x0C || n == 0x0D || n == 0x20
    || n == 0xA0 || n == 0x1680 || (0x2000 ≤ n && n ≤ 0x200A)
    || n == 0x2028 || n == 0x2029 || n == 0x202F || n == 0x205F
    || n == 0x3000 || n == 0xFEFF

/-- The function `trim` on character lists: white space is dropped at both
ends. -/
def trimChars (l : List Char) : List Char :=
  ((l.dropWhile isJsWhiteSpace).reverse.dropWhile isJsWhiteSpace).reverse

/-- The method `s.trim()`. -/
def jsTrim (s : String) : String := ⟨trimChars s.data⟩

/-- Puts a character in front of the first piece of a split. -/
def consHead (c : Char) : List (List Char) → List (List Char)
  | [] => [[c]]
  | p :: ps => (c :: p) :: ps

/-- The function `split` with a non-empty separator, on character lists: the
text is scanned from the left, every occurrence of the separator found closes
the current piece, and the scan resumes right after that occurrence.  The
first argument counts the characters of an occurrence just found that are
still to be passed over. -/
def splitChars (sep : List Char) : Nat → List Char → List (List Char)
  | _, [] => [[]]
  | skip + 1, _ :: rest => splitChars sep skip rest
  | 0, c :: rest =>
    if sep.isPrefixOf (c :: rest) then [] :: splitChars sep (sep.length - 1) rest
    else consHead c (splitChars sep 0 rest)

/-- The method `s.split(sep)` for a non-empty `sep`. -/
def jsSplit (s sep : String) : List String :=
  (splitChars sep.data 0 s.data).map String.mk

/-- The function `join` on character lists. -/
def joinChars (sep : List Char) : List (List Char) → List Char
  | [] => []
  | [x] => x
  | x :: y :: rest => x ++ sep ++ joinChars sep (y :: rest)

/-- The method `l.join(sep)` of an array of strings. -/
def jsJoin (l : List String) (sep : String) : String :=
  ⟨joinChars sep.data (l.map String.data)⟩

/-- The method `s.startsWith(p)`. -/
def jsStartsWith (s p : String) : Bool := p.data.isPrefixOf s.data

/-- The separator written `"\\n"` in the component: a backslash followed by the
letter n. -/
def lineSep : String := "\\n"

/-! ## Exclude list text -/

/-- The expression `list.join("\\n")` that fills the text box on load. -/
def encode (list : List String) : String := jsJoin list lineSep

/-- The expression
`excludeText.split("\\n").map((x) => x.trim()).filter(Boolean)` of
`saveExcludeList`. -/
def decode (excludeText : String) : List String :=
  ((jsSplit excludeText lineSep).map jsTrim).filter (fun x => x ≠ "")

/-! ## Platform, storage and component state -/

/-- What the component takes from its surroundings. -/
structure Platform where
  /-- Result of `new URL(s).hostname`; `none` when the constructor throws. -/
  urlHostname : String → Option String
  /-- The method `s.toLowerCase()`. -/
  toLowerCase : String → String
  /-- The constant `CATEGORIES.PRODUCTIVITY`. -/
  productivity : String

/-- The area `chrome.storage.local`, restricted to the four keys the component
reads or writes; `none` is a key that is not stored. -/
structure Store where
  events : Option (List JsVal)
  contentAnalyses : Option (List JsVal)
  settings : Option Settings
  userCategories : Option CategoryMap
  deriving DecidableEq, Repr

/-- The component state (`useState` cells), the storage area, and the number of
`chrome.storage.local.set` calls made so far. -/
structure State where
  settings : Settings
  userCategories : CategoryMap
  excludeText : String
  newSiteUrl : String
  newSiteCategory : String
  status : String
  store : Store
  setCalls : Nat
  deriving DecidableEq, Repr

/-- The settings record literal that appears as the initial `useState` value,
as the default in the load request and in `resetToDefaults`. -/
def defaultSettings : Settings :=
  [("contentScanning", .bool true),
   ("emotionalAnalysis", .bool true),
   ("productivityTracking", .bool true),
   ("biasDetection", .bool true),
   ("excludeList", .strList []),
   ("scanInterval", .num 30000),
   ("onboardingCompleted", .bool false)]

/-- A storage area holding none of the keys. -/
def emptyStore : Store :=
  { events := none, contentAnalyses := none, settings := none, userCategories := none }

/-- The component right after mounting, before the load effect has run. -/
def initialState (P : Platform) (store : Store) (setCalls : Nat) : State :=
  { settings := defaultSettings
    userCategories := []
    excludeText := ""
    newSiteUrl := ""
    newSiteCategory := P.productivity
    status := ""
    store := store
    setCalls := setCalls }

/-- Truthiness of a settings value. -/
def truthy : JsVal → Bool
  | .bool b => b
  | .num n => n != 0
  | .str s => s != ""
  | .strList _ => true

/-- The value of `(res.settings.excludeList || []).join("\\n")`; `none` when
the expression throws because the stored value is truthy but not an array. -/
def excludeTextOf : Option JsVal → Option String
  | none => some (encode [])
  | some (.strList l) => some (encode l)
  | some v => if truthy v then none else some (encode [])

/-- The load effect: `chrome.storage.local.get` with the two defaults, then the
three state updates of its callback.  A key that is stored is returned as
stored; the default is used only for a key that is not stored.  When the third
update throws, the first two have already been made. -/
def load (st : State) : State :=
  let resSettings := st.store.settings.getD defaultSettings
  let resUserCategories := st.store.userCategories.getD []
  { st with
    settings := resSettings
    userCategories := resUserCategories
    excludeText := (excludeTextOf (objGet resSettings "excludeList")).getD st.excludeText }

/-- The function `showStatus`. -/
def showStatus (message : String) (st : State) : State :=
  { st with status := message }

/-- The function `updateSetting`. -/
def updateSetting (key : String) (value : JsVal) (st : State) : State :=
  let newSettings := objSet st.settings key value
  showStatus "Settings saved"
    { st with
      settings := newSettings
      store := { st.store with settings := some newSettings }
      setCalls := st.setCalls + 1 }

/-- The function `saveExcludeList`. -/
def saveExcludeList (st : State) : State :=
  let excludeList := decode st.excludeText
  updateSetting "excludeList" (.strList excludeList) st

/-- The function `extractDomain`. -/
def extractDomain (P : Platform) (url : String) : String :=
  match P.urlHostname (if jsStartsWith url "http" then url else "https://" ++ url) with
  | some hostname => hostname
  | none => P.toLowerCase url

/-- The function `addSiteCategory`.  The test `!newCategories[newSiteCategory]`
holds only when the read is `undefined` (arrays and inherited members are
truthy); `.includes` exists on an array only, so the call on an inherited
member throws before any state update or storage write. -/
def addSiteCategory (P : Platform) (st : State) : Except JsError State :=
  if jsTrim st.newSiteUrl = "" then
    .ok (showStatus "Please enter a valid URL" st)
  else
    let newCategories :=
      match objRead st.userCategories st.newSiteCategory with
      | .undefined => objSet st.userCategories st.newSiteCategory []
      | _ => st.userCategories
    let domain := extractDomain P st.newSiteUrl
    match objRead newCategories st.newSiteCategory with
    | .own domains =>
      if ¬ domain ∈ domains then
        let newCategories := objSet newCategories st.newSiteCategory (domains ++ [domain])
        .ok { showStatus ("Added " ++ domain ++ " to " ++ st.newSiteCategory ++ " category")
            { st with
              userCategories := newCategories
              store := { st.store with userCategories := some newCategories }
              setCalls := st.setCalls + 1 } with
          newSiteUrl := "" }
      else
        .ok (showStatus "Site already exists in this category" st)
    | _ => .error .typeError

/-- The last three statements of `removeSiteCategory`: the new map is cached,
written to storage, and the removal is reported. -/
def commitRemoval (category domain : String) (newCategories : CategoryMap) (st : State) :
    State :=
  showStatus ("Removed " ++ domain ++ " from " ++ category ++ " category")
    { st with
      userCategories := newCategories
      store := { st.store with userCategories := some newCategories }
      setCalls := st.setCalls + 1 }

/-- The function `removeSiteCategory`.  The test `newCategories[category]`
holds for an own array and for an inherited member; `.filter` exists on an
array only, so the call on an inherited member throws before any state update
or storage write. -/
def removeSiteCategory (category domain : String) (st : State) : Except JsError State :=
  match objRead st.userCategories category with
  | .own domains =>
    let kept := domains.filter (fun d => d ≠ domain)
    let newCategories := objSet st.userCategories category kept
    .ok (commitRemoval category domain
      (if kept.length = 0 then objDelete newCategories category else newCategories) st)
  | .inherited => .error .typeError
  | .undefined => .ok (commitRemoval category domain st.userCategories st)

/-- The function `resetToDefaults`. -/
def resetToDefaults (st : State) : State :=
  showStatus "Settings reset to defaults"
    { st with
      settings := defaultSettings
      userCategories := []
      excludeText := ""
      store := { st.store with settings := some defaultSettings, userCategories := some [] }
      setCalls := st.setCalls + 1 }

/-- The function `clearAllData`; `confirmed` is the answer to the `confirm`
dialog.  After `chrome.storage.local.clear` the page is reloaded: the component
is mounted afresh and its load effect runs. -/
def clearAllData (P : Platform) (confirmed : Bool) (st : State) : State :=
  if confirmed then load (initialState P emptyStore st.setCalls) else st

/-- The object `data` that `exportData` serialises into the downloaded file. -/
structure ExportSnapshot where
  events : List JsVal
  contentAnalyses : List JsVal
  settings : Settings
  userCategories : CategoryMap
  exportDate : String
  deriving DecidableEq, Repr

/-- The object `data` built in the callback of `exportData` from the result
`res` of `chrome.storage.local.get` with the array of the four keys: a key
that is not stored is `undefined` in `res`, and the fallback after `||` is
taken.  `now` is the value of `new Date().toISOString()`. -/
def exportedData (now : String) (res : Store) : ExportSnapshot :=
  { events := res.events.getD []
    contentAnalyses := res.contentAnalyses.getD []
    settings := res.settings.getD []
    userCategories := res.userCategories.getD []
    exportDate := now }

/-- The download name: the date part of a second reading of the clock, between
`digital-footprint-data-` and `.json`. -/
def exportFileName (now : String) : String :=
  "digital-footprint-data-" ++ (jsSplit now "T").headD "" ++ ".json"

/-- The function `exportData`: the snapshot handed to `JSON.stringify`, the
name of the downloaded file, and the component state afterwards.  `now` and
`nowFile` are the two readings of the clock. -/
def exportData (now nowFile : String) (st : State) : (ExportSnapshot × String) × State :=
  ((exportedData now st.store, exportFileName nowFile),
    showStatus "Data exported successfully" st)

/-- The user actions on the categories and data panels.  `add` types the URL
into the text field, picks the category and presses the Add button. -/
inductive Op where
  | add (category rawUrl : String)
  | remove (category domain : String)
  | reset
  | clear (confirmed : Bool)
  deriving DecidableEq, Repr

/-- One user action.  A handler that throws has made no state update: the
component is left as it was when the handler started. -/
def step (P : Platform) (st : State) : Op → State
  | .add category rawUrl =>
    match addSiteCategory P { st with newSiteUrl := rawUrl, newSiteCategory := category } with
    | .ok st' => st'
    | .error _ => { st with newSiteUrl := rawUrl, newSiteCategory := category }
  | .remove category domain =>
    match removeSiteCategory category domain st with
    | .ok st' => st'
    | .error _ => st
  | .reset => resetToDefaults st
  | .clear confirmed => clearAllData P confirmed st

/-- A sequence of user actions, carried out from left to right. -/
def run (P : Platform) (st : State) (ops : List Op) : State :=
  ops.foldl (step P) st

/-- A finite fragment of the URL parser, enough for the worked examples: the
two spellings of one address, both with host `example.com`. -/
def samplePlatform : Platform :=
  { urlHostname := fun s =>
      if s = "https://Example.com" ∨ s = "https://example.com" then some "example.com"
      else none
    toLowerCase := fun s => s.map Char.toLower
    productivity := "productivity" }

/-- A state with everything empty. -/
def blankState : State := initialState samplePlatform emptyStore 0

/-! ## Auxiliary definitions for the statements -/

/-- The map `addSiteCategory` builds in `newCategories` when it adds domain `d`
to category `c` of `m`. -/
def addedMap (m : CategoryMap) (c d : String) : CategoryMap :=
  objSet (if (objGet m c).isNone then objSet m c [] else m) c ((objGet m c).getD [] ++ [d])

/-- The map `removeSiteCategory` builds in `newCategories`. -/
def removedMap (m : CategoryMap) (category domain : String) : CategoryMap :=
  match objGet m category with
  | some domains =>
    if (domains.filter (fun d => d ≠ domain)).length = 0 then
      objDelete (objSet m category (domains.filter (fun d => d ≠ domain))) category
    else objSet m category (domains.filter (fun d => d ≠ domain))
  | none => m

/-- Every category present has a non-empty list, with no domain twice. -/
def InvMap (m : CategoryMap) : Prop :=
  ∀ p ∈ m, p.2 ≠ [] ∧ p.2.Nodup

/-- The invariant for the cached map and for the stored map (a key that is not
stored reads as the empty map). -/
def InvState (st : State) : Prop :=
  InvMap st.userCategories ∧ InvMap (st.store.userCategories.getD [])

/-- A state whose storage area holds a settings record with one field only. -/
def partialState : State :=
  { blankState with
    store := { emptyStore with settings := some [("contentScanning", .bool false)] } }

/-- The blank state with `example.com` typed into the URL field and the
category `constructor` chosen: a name every plain object inherits. -/
def inheritedNameState : State :=
  { blankState with newSiteUrl := "example.com", newSiteCategory := "constructor" }

/-- A state whose only category, cached and stored, is named `constructor`. -/
def constructorKeyState : State :=
  { blankState with
    userCategories := [("constructor", ["example.com"])]
    store := { emptyStore with userCategories := some [("constructor", ["example.com"])] } }

/-- A state with one categorised site, cached and stored. -/
def categorisedState : State :=
  { blankState with
    userCategories := [("productivity", ["example.com"])]
    store := { emptyStore with userCategories := some [("productivity", ["example.com"])] } }

/-- The pipeline of `decode` on character lists. -/
def decodeChars (sep t : List Char) : List (List Char) :=
  ((splitChars sep 0 t).map trimChars).filter (fun x => x ≠ [])

/-- A finite fragment of the URL parser for the address `httpbin.org/get`: with
the scheme `https://` in front it parses, with host `httpbin.org`; as it
stands it has no scheme and the constructor throws. -/
def httpbinPlatform : Platform :=
  { urlHostname := fun s =>
      if s = "https://httpbin.org/get" then some "httpbin.org" else none
    toLowerCase := fun s => ⟨s.data.map Char.toLower⟩
    productivity := "productivity" }

/-! ## Lemmas on objects -/

theorem objGet_objSet_same {α : Type} (o : Obj α) (k : String) (v : α) :
    objGet (objSet o k v) k = some v := by
  induction o with
  | nil => simp [objSet, objGet]
  | cons p rest ih =>
    obtain ⟨k0, x⟩ := p
    by_cases h : k0 = k
    · simp [objSet, objGet, h]
    · simp [objSet, objGet, h, ih]

theorem objGet_objSet_other {α : Type} (o : Obj α) (k k' : String) (v : α) (hk : k' ≠ k) :
    objGet (objSet o k v) k' = objGet o k' := by
  induction o with
  | nil => simp [objSet, objGet, Ne.symm hk]
  | cons p rest ih =>
    obtain ⟨k0, x⟩ := p
    by_cases h : k0 = k
    · subst h
      simp [objSet, objGet, Ne.symm hk]
    · by_cases h' : k0 = k'
      · subst h'
        simp [objSet, objGet, h]
      · simp [objSet, objGet, h, h', ih]

theorem objSet_same_value {α : Type} (o : Obj α) (k : String) (v : α)
    (h : objGet o k = some v) : objSet o k v = o := by
  induction o with
  | nil => simp [objGet] at h
  | cons p rest ih =>
    obtain ⟨k0, x⟩ := p
    by_cases hk : k0 = k
    · simp [objGet, hk] at h
      simp [objSet, hk, h]
    · simp [objGet, hk] at h
      simp [objSet, hk, ih h]

theorem mem_objSet {α : Type} (o : Obj α) (k : String) (v : α) (p : String × α)
    (hp : p ∈ objSet o k v) : p ∈ o ∨ p = (k, v) := by
  induction o with
  | nil => simpa [objSet] using hp
  | cons q rest ih =>
    obtain ⟨k0, x⟩ := q
    by_cases hk : k0 = k
    · simp [objSet, hk] at hp
      rcases hp with hp | hp
      · exact Or.inr hp
      · exact Or.inl (List.mem_cons_of_mem _ hp)
    · simp [objSet, hk] at hp
      rcases hp with hp | hp
      · exact Or.inl (by simp [hp])
      · rcases ih hp with h | h
        · exact Or.inl (List.mem_cons_of_mem _ h)
        · exact Or.inr h

theorem mem_objDelete {α : Type} (o : Obj α) (k : String) (p : String × α)
    (hp : p ∈ objDelete o k) : p ∈ o ∧ p.1 ≠ k := by
  simpa [objDelete] using hp

theorem objGet_eq_none_of_no_key {α : Type} (o : Obj α) (k : String)
    (h : ∀ p ∈ o, p.1 ≠ k) : objGet o k = none := by
  induction o with
  | nil => rfl
  | cons q rest ih =>
    obtain ⟨k0, x⟩ := q
    have hk : k0 ≠ k := h (k0, x) (by simp)
    simp only [objGet, hk, if_false]
    exact ih (fun p hp => h p (List.mem_cons_of_mem _ hp))

theorem objGet_objDelete_same {α : Type} (o : Obj α) (k : String) :
    objGet (objDelete o k) k = none :=
  objGet_eq_none_of_no_key _ _ (fun p hp => (mem_objDelete o k p hp).2)

theorem objGet_objDelete_other {α : Type} (o : Obj α) (k k' : String) (hk : k' ≠ k) :
    objGet (objDelete o k) k' = objGet o k' := by
  induction o with
  | nil => rfl
  | cons q rest ih =>
    obtain ⟨k0, x⟩ := q
    by_cases h : k0 = k
    · have h' : k0 ≠ k' := by rw [h]; exact Ne.symm hk
      have e : objDelete ((k0, x) :: rest) k = objDelete rest k := by
        simp [objDelete, h]
      rw [e, ih]
      simp [objGet, h']
    · have e : objDelete ((k0, x) :: rest) k = (k0, x) :: objDelete rest k := by
        simp [objDelete, h]
      rw [e]
      by_cases h' : k0 = k'
      · simp [objGet, h']
      · simp [objGet, h', ih]

theorem mem_of_objGet {α : Type} (o : Obj α) (k : String) (v : α)
    (h : objGet o k = some v) : (k, v) ∈ o := by
  induction o with
  | nil => simp [objGet] at h
  | cons q rest ih =>
    obtain ⟨k0, x⟩ := q
    by_cases hk : k0 = k
    · simp [objGet, hk] at h
      simp [hk, h]
    · simp [objGet, hk] at h
      exact List.mem_cons_of_mem _ (ih h)

/-! ## The category store: `addSiteCategory` and `removeSiteCategory` -/

theorem objRead_own {α : Type} (o : Obj α) (k : String) (v : α) (h : objGet o k = some v) :
    objRead o k = .own v := by
  simp [objRead, h]

theorem objRead_undefined {α : Type} (o : Obj α) (k : String) (h : objGet o k = none)
    (hk : ¬ k ∈ objectPrototypeNames) : objRead o k = .undefined := by
  simp [objRead, h, hk]

theorem objRead_inherited {α : Type} (o : Obj α) (k : String) (h : objGet o k = none)
    (hk : k ∈ objectPrototypeNames) : objRead o k = .inherited := by
  simp [objRead, h, hk]

theorem objRead_ne_inherited_of_own {α : Type} (o : Obj α) (k : String) (v : α)
    (h : objGet o k = some v) : objRead o k ≠ .inherited := by
  rw [objRead_own o k v h]
  intro e
  cases e

theorem objRead_ne_inherited_of_name {α : Type} (o : Obj α) (k : String)
    (hk : ¬ k ∈ objectPrototypeNames) : objRead o k ≠ .inherited := by
  cases h : objGet o k with
  | none =>
    rw [objRead_undefined o k h hk]
    intro e
    cases e
  | some v => exact objRead_ne_inherited_of_own o k v h

theorem not_name_of_objRead {α : Type} (o : Obj α) (k : String) (h : objGet o k = none)
    (hr : objRead o k ≠ .inherited) : ¬ k ∈ objectPrototypeNames :=
  fun hk => hr (objRead_inherited o k h hk)

theorem objSet_objSet {α : Type} (o : Obj α) (k : String) (v w : α) :
    objSet (objSet o k v) k w = objSet o k w := by
  induction o with
  | nil => simp [objSet]
  | cons q rest ih =>
    obtain ⟨k0, x⟩ := q
    by_cases hk : k0 = k
    · simp [objSet, hk]
    · simp [objSet, hk, ih]

theorem addedMap_eq (m : CategoryMap) (c d : String) :
    addedMap m c d = objSet m c ((objGet m c).getD [] ++ [d]) := by
  unfold addedMap
  split
  · exact objSet_objSet _ _ _ _
  · rfl

theorem addSiteCategory_blank (P : Platform) (st : State) (h : jsTrim st.newSiteUrl = "") :
    addSiteCategory P st = .ok { st with status := "Please enter a valid URL" } := by
  simp [addSiteCategory, h, showStatus]

/-- The category is an own key of the cached map. -/
theorem addSiteCategory_own (P : Platform) (st : State) (ds : List String)
    (h : jsTrim st.newSiteUrl ≠ "")
    (hg : objGet st.userCategories st.newSiteCategory = some ds) :
    addSiteCategory P st =
      if ¬ extractDomain P st.newSiteUrl ∈ ds then
        .ok { st with
          userCategories := addedMap st.userCategories st.newSiteCategory
            (extractDomain P st.newSiteUrl)
          store := { st.store with
            userCategories := some
              (addedMap st.userCategories st.newSiteCategory (extractDomain P st.newSiteUrl)) }
          setCalls := st.setCalls + 1
          status := "Added " ++ extractDomain P st.newSiteUrl ++ " to " ++
            st.newSiteCategory ++ " category"
          newSiteUrl := "" }
      else .ok { st with status := "Site already exists in this category" } := by
  unfold addSiteCategory
  simp only [h, if_false, objRead_own _ _ _ hg, addedMap_eq, hg, Option.getD_some]
  rfl

/-- The category is neither an own key nor an inherited name. -/
theorem addSiteCategory_undefined (P : Platform) (st : State)
    (h : jsTrim st.newSiteUrl ≠ "")
    (hg : objGet st.userCategories st.newSiteCategory = none)
    (hk : ¬ st.newSiteCategory ∈ objectPrototypeNames) :
    addSiteCategory P st =
      .ok { st with
        userCategories := addedMap st.userCategories st.newSiteCategory
          (extractDomain P st.newSiteUrl)
        store := { st.store with
          userCategories := some
            (addedMap st.userCategories st.newSiteCategory (extractDomain P st.newSiteUrl)) }
        setCalls := st.setCalls + 1
        status := "Added " ++ extractDomain P st.newSiteUrl ++ " to " ++
          st.newSiteCategory ++ " category"
        newSiteUrl := "" } := by
  unfold addSiteCategory
  simp only [h, if_false, objRead_undefined _ _ hg hk,
    objRead_own _ _ _ (objGet_objSet_same st.userCategories st.newSiteCategory []),
    addedMap_eq, hg, Option.getD_none, objSet_objSet]
  simp [showStatus]

/-- The category names an inherited member and is not an own key: the handler
throws. -/
theorem addSiteCategory_throws (P : Platform) (st : State)
    (h : jsTrim st.newSiteUrl ≠ "")
    (hr : objRead st.userCategories st.newSiteCategory = .inherited) :
    addSiteCategory P st = .error .typeError := by
  unfold addSiteCategory
  simp only [h, if_false, hr]

theorem addSiteCategory_duplicate (P : Platform) (st : State)
    (h : jsTrim st.newSiteUrl ≠ "")
    (hd : extractDomain P st.newSiteUrl ∈ (objGet st.userCategories st.newSiteCategory).getD []) :
    addSiteCategory P st = .ok { st with status := "Site already exists in this category" } := by
  cases hg : objGet st.userCategories st.newSiteCategory with
  | none => simp [hg] at hd
  | some ds =>
    simp only [hg, Option.getD_some] at hd
    rw [addSiteCategory_own P st ds h hg, if_neg (not_not.mpr hd)]

theorem addSiteCategory_fresh (P : Platform) (st : State)
    (h : jsTrim st.newSiteUrl ≠ "")
    (hr : objRead st.userCategories st.newSiteCategory ≠ .inherited)
    (hd : ¬ extractDomain P st.newSiteUrl ∈
      (objGet st.userCategories st.newSiteCategory).getD []) :
    addSiteCategory P st =
      .ok { st with
        userCategories :=
          addedMap st.userCategories st.newSiteCategory (extractDomain P st.newSiteUrl)
        store := { st.store with
          userCategories := some
            (addedMap st.userCategories st.newSiteCategory (extractDomain P st.newSiteUrl)) }
        setCalls := st.setCalls + 1
        status := "Added " ++ extractDomain P st.newSiteUrl ++ " to " ++
          st.newSiteCategory ++ " category"
        newSiteUrl := "" } := by
  cases hg : objGet st.userCategories st.newSiteCategory with
  | none => exact addSiteCategory_undefined P st h hg (not_name_of_objRead _ _ hg hr)
  | some ds =>
    simp only [hg, Option.getD_some] at hd
    rw [addSiteCategory_own P st ds h hg, if_pos hd]

theorem objGet_addedMap_same (m : CategoryMap) (c d : String) :
    objGet (addedMap m c d) c = some ((objGet m c).getD [] ++ [d]) := by
  simp [addedMap, objGet_objSet_same]

theorem objGet_addedMap_other (m : CategoryMap) (c d c' : String) (h : c' ≠ c) :
    objGet (addedMap m c d) c' = objGet m c' := by
  unfold addedMap
  rw [objGet_objSet_other _ _ _ _ h]
  split
  · exact objGet_objSet_other _ _ _ _ h
  · rfl

theorem step_add_ok (P : Platform) (st st' : State) (c u : String)
    (h : addSiteCategory P { st with newSiteUrl := u, newSiteCategory := c } = .ok st') :
    step P st (.add c u) = st' := by
  simp only [step, h]

theorem step_remove_ok (P : Platform) (st st' : State) (c d : String)
    (h : removeSiteCategory c d st = .ok st') :
    step P st (.remove c d) = st' := by
  simp only [step, h]

/-- The lookups after a successful add action. -/
theorem step_add_fresh_lookup (P : Platform) (st : State) (c u : String)
    (h : jsTrim u ≠ "") (hk : ¬ c ∈ objectPrototypeNames)
    (hd : ¬ extractDomain P u ∈ (objGet st.userCategories c).getD []) :
    objGet (step P st (.add c u)).userCategories c
        = some ((objGet st.userCategories c).getD [] ++ [extractDomain P u]) ∧
    (∀ c', c' ≠ c →
      objGet (step P st (.add c u)).userCategories c' = objGet st.userCategories c') := by
  rw [step_add_ok P st _ c u
    (addSiteCategory_fresh P { st with newSiteUrl := u, newSiteCategory := c } h
      (objRead_ne_inherited_of_name _ _ hk) hd)]
  exact ⟨objGet_addedMap_same _ _ _, fun c' hc => objGet_addedMap_other _ _ _ _ hc⟩

theorem extractDomain_of_scheme (P : Platform) (url host : String)
    (hs : jsStartsWith url "http" = true) (hp : P.urlHostname url = some host) :
    extractDomain P url = host := by
  simp [extractDomain, hs, hp]

theorem extractDomain_of_bare (P : Platform) (url host : String)
    (hs : jsStartsWith url "http" = false) (hp : P.urlHostname ("https://" ++ url) = some host) :
    extractDomain P url = host := by
  simp [extractDomain, hs, hp]

/-- C1: `addSiteCategory` changes nothing but the status line when it fails.
With a blank URL field the status is "Please enter a valid URL"; with a
non-blank URL whose domain is already listed under the chosen category the
status is "Site already exists in this category"; in both cases the handler
ends normally and the cached map, the storage area and the count of storage
writes are as before.  A
worked example: once `https://Example.com` has been added to `productivity`, adding
`example.com` to `productivity` is refused as a duplicate (for every URL parser
that gives both spellings the host `example.com`). -/
theorem addSiteCategory_failure_keeps_state (P : Platform) (st : State) :
    (jsTrim st.newSiteUrl = "" →
      addSiteCategory P st = .ok { st with status := "Please enter a valid URL" }) ∧
    (jsTrim st.newSiteUrl ≠ "" →
      extractDomain P st.newSiteUrl ∈
        (objGet st.userCategories st.newSiteCategory).getD [] →
      addSiteCategory P st
        = .ok { st with status := "Site already exists in this category" }) ∧
    (P.urlHostname "https://Example.com" = some "example.com" →
      P.urlHostname "https://example.com" = some "example.com" →
      ¬ "example.com" ∈ (objGet st.userCategories "productivity").getD [] →
      (step P st (.add "productivity" "https://Example.com")).status
          = "Added example.com to productivity category" ∧
        step P (step P st (.add "productivity" "https://Example.com"))
            (.add "productivity" "example.com")
          = { step P st (.add "productivity" "https://Example.com") with
              newSiteUrl := "example.com"
              newSiteCategory := "productivity"
              status := "Site already exists in this category" }) := by
  refine ⟨addSiteCategory_blank P st, addSiteCategory_duplicate P st, ?_⟩
  intro h1 h2 hnew
  have e1 : extractDomain P "https://Example.com" = "example.com" :=
    extractDomain_of_scheme P _ _ (by decide) h1
  have e2 : extractDomain P "example.com" = "example.com" :=
    extractDomain_of_bare P _ _ (by decide) h2
  have t1 : jsTrim "https://Example.com" ≠ "" := by decide
  have t2 : jsTrim "example.com" ≠ "" := by decide
  have hk : ¬ "productivity" ∈ objectPrototypeNames := by decide
  have hfresh := addSiteCategory_fresh P
    { st with newSiteUrl := "https://Example.com", newSiteCategory := "productivity" }
    t1 (objRead_ne_inherited_of_name _ _ hk) (by simpa [e1] using hnew)
  simp only [e1] at hfresh
  have hst1 := step_add_ok P st _ "productivity" "https://Example.com" hfresh
  constructor
  · rw [hst1]
    show "Added " ++ "example.com" ++ " to " ++ "productivity" ++ " category" = _
    decide
  · have hdup := addSiteCategory_duplicate P
      { step P st (.add "productivity" "https://Example.com") with
        newSiteUrl := "example.com", newSiteCategory := "productivity" }
      t2
      (by
        rw [hst1]
        simp [e2, objGet_addedMap_same])
    exact step_add_ok P _ _ "productivity" "example.com" hdup

/-- C1, worked examples on the sample platform: a URL field holding two spaces
is refused, and the second of the two spellings of `example.com` is refused as
a duplicate. -/
theorem addSiteCategory_failure_keeps_state_witness :
    (jsTrim ({ blankState with newSiteUrl := "  " } : State).newSiteUrl = "" ∧
      addSiteCategory samplePlatform { blankState with newSiteUrl := "  " }
        = .ok { blankState with newSiteUrl := "  ", status := "Please enter a valid URL" }) ∧
    (step samplePlatform (step samplePlatform blankState
          (.add "productivity" "https://Example.com")) (.add "productivity" "example.com")
        = { step samplePlatform blankState (.add "productivity" "https://Example.com") with
            newSiteUrl := "example.com"
            newSiteCategory := "productivity"
            status := "Site already exists in this category" }) :=
  ⟨⟨by decide,
    (addSiteCategory_failure_keeps_state samplePlatform
      { blankState with newSiteUrl := "  " }).1 (by decide)⟩,
   ((addSiteCategory_failure_keeps_state samplePlatform blankState).2.2
      (by decide) (by decide) (by decide)).2⟩

/-- C2, as stated, fails: with the category `constructor`, which is not a key
of the empty map, and the non-blank URL `example.com`, whose domain is not
listed, the read `newCategories[newSiteCategory]` finds the inherited member
of `Object.prototype`, the call of `.includes` on it throws, and nothing is
added, written or reported. -/
theorem addSiteCategory_success_counterexample :
    jsTrim inheritedNameState.newSiteUrl ≠ "" ∧
    objGet inheritedNameState.userCategories inheritedNameState.newSiteCategory = none ∧
    ¬ extractDomain samplePlatform inheritedNameState.newSiteUrl ∈
      (objGet inheritedNameState.userCategories inheritedNameState.newSiteCategory).getD [] ∧
    addSiteCategory samplePlatform inheritedNameState = .error .typeError ∧
    (step samplePlatform blankState (.add "constructor" "example.com")).userCategories = [] ∧
    (step samplePlatform blankState (.add "constructor" "example.com")).setCalls = 0 ∧
    (step samplePlatform blankState (.add "constructor" "example.com")).status = "" := by
  refine ⟨by decide, by decide, by decide, ?_, ?_⟩
  · exact addSiteCategory_throws samplePlatform inheritedNameState (by decide) (by decide)
  · have e : step samplePlatform blankState (.add "constructor" "example.com")
        = inheritedNameState := by
      have h := addSiteCategory_throws samplePlatform inheritedNameState (by decide) (by decide)
      show (match addSiteCategory samplePlatform inheritedNameState with
        | .ok st' => st'
        | .error _ => inheritedNameState) = inheritedNameState
      rw [h]
    rw [e]
    exact ⟨rfl, rfl, rfl⟩

/-- C2, amended: when the URL field is not blank, the chosen category `c` is
an own key of the cached map or is not the name of a member of
`Object.prototype`, and the extracted domain `d` is not yet listed under `c`,
`addSiteCategory` succeeds: the new map gives `c` its old list (empty when `c`
had none) followed by `d`, gives every other category what it had, is both the
cached and the stored map, one storage write is made, and the status is
"Added d to c category". -/
theorem addSiteCategory_success (P : Platform) (st : State)
    (h : jsTrim st.newSiteUrl ≠ "")
    (hr : objRead st.userCategories st.newSiteCategory ≠ .inherited)
    (hd : ¬ extractDomain P st.newSiteUrl ∈
      (objGet st.userCategories st.newSiteCategory).getD []) :
    ∃ st' : State, addSiteCategory P st = .ok st' ∧
      objGet st'.userCategories st.newSiteCategory
          = some ((objGet st.userCategories st.newSiteCategory).getD [] ++
              [extractDomain P st.newSiteUrl]) ∧
      (∀ c, c ≠ st.newSiteCategory →
        objGet st'.userCategories c = objGet st.userCategories c) ∧
      st'.store.userCategories = some st'.userCategories ∧
      st'.store.settings = st.store.settings ∧
      st'.store.events = st.store.events ∧
      st'.store.contentAnalyses = st.store.contentAnalyses ∧
      st'.settings = st.settings ∧
      st'.setCalls = st.setCalls + 1 ∧
      st'.status
        = "Added " ++ extractDomain P st.newSiteUrl ++ " to " ++ st.newSiteCategory ++
            " category" :=
  ⟨_, addSiteCategory_fresh P st h hr hd, objGet_addedMap_same _ _ _,
    fun _ hc => objGet_addedMap_other _ _ _ _ hc, rfl, rfl, rfl, rfl, rfl, rfl, rfl⟩

/-- C2, amended, worked example: adding `https://Example.com` to `productivity`
from the blank state. -/
theorem addSiteCategory_success_witness :
    jsTrim ({ blankState with newSiteUrl := "https://Example.com",
                              newSiteCategory := "productivity" } : State).newSiteUrl ≠ "" ∧
    objRead ({ blankState with newSiteUrl := "https://Example.com",
                               newSiteCategory := "productivity" } : State).userCategories
      "productivity" ≠ .inherited ∧
    ∃ st' : State,
      addSiteCategory samplePlatform
        { blankState with newSiteUrl := "https://Example.com",
                          newSiteCategory := "productivity" } = .ok st' ∧
      objGet st'.userCategories "productivity" = some ["example.com"] ∧
      st'.status = "Added example.com to productivity category" :=
  ⟨by decide, by decide,
   match addSiteCategory_success samplePlatform
      { blankState with newSiteUrl := "https://Example.com",
                        newSiteCategory := "productivity" }
      (by decide) (by decide) (by decide) with
   | ⟨st', h1, h2, _, _, _, _, _, _, _, h3⟩ => ⟨st', h1, h2, h3⟩⟩

theorem removeSiteCategory_eq (category domain : String) (st : State)
    (hr : objRead st.userCategories category ≠ .inherited) :
    removeSiteCategory category domain st =
      .ok { st with
        userCategories := removedMap st.userCategories category domain
        store := { st.store with
          userCategories := some (removedMap st.userCategories category domain) }
        setCalls := st.setCalls + 1
        status := "Removed " ++ domain ++ " from " ++ category ++ " category" } := by
  cases hg : objGet st.userCategories category with
  | none =>
    unfold removeSiteCategory
    simp only [objRead_undefined _ _ hg (not_name_of_objRead _ _ hg hr), removedMap, hg]
    rfl
  | some ds =>
    unfold removeSiteCategory
    simp only [objRead_own _ _ _ hg, removedMap, hg]
    rfl

/-- The category names an inherited member and is not an own key: the handler
throws. -/
theorem removeSiteCategory_throws (category domain : String) (st : State)
    (hr : objRead st.userCategories category = .inherited) :
    removeSiteCategory category domain st = .error .typeError := by
  unfold removeSiteCategory
  simp only [hr]

theorem removedMap_absent (m : CategoryMap) (c d : String) (h : objGet m c = none) :
    removedMap m c d = m := by
  simp [removedMap, h]

theorem removedMap_not_listed (m : CategoryMap) (c d : String) (ds : List String)
    (h : objGet m c = some ds) (hd : ¬ d ∈ ds) (hne : ds ≠ []) :
    removedMap m c d = m := by
  have hf : ds.filter (fun x => x ≠ d) = ds := by
    rw [List.filter_eq_self]
    intro a ha
    have : a ≠ d := fun e => hd (e ▸ ha)
    simpa using this
  have hl : ¬ ds.length = 0 := by
    intro e
    exact hne (List.length_eq_zero.mp e)
  simp only [removedMap, h, hf, hl, if_false]
  exact objSet_same_value m c ds h

theorem removedMap_other (m : CategoryMap) (c d c' : String) (hc : c' ≠ c) :
    objGet (removedMap m c d) c' = objGet m c' := by
  unfold removedMap
  cases h : objGet m c with
  | none => rfl
  | some ds =>
    simp only
    split
    · rw [objGet_objDelete_other _ _ _ hc, objGet_objSet_other _ _ _ _ hc]
    · rw [objGet_objSet_other _ _ _ _ hc]

theorem removedMap_idem (m : CategoryMap) (c d : String) :
    removedMap (removedMap m c d) c d = removedMap m c d := by
  cases h : objGet m c with
  | none => simp [removedMap, h]
  | some ds =>
    by_cases hk : (ds.filter (fun x => x ≠ d)).length = 0
    · have e : removedMap m c d = objDelete (objSet m c (ds.filter (fun x => x ≠ d))) c := by
        simp only [removedMap, h, hk, if_true]
      rw [e]
      exact removedMap_absent _ _ _ (objGet_objDelete_same _ _)
    · have e : removedMap m c d = objSet m c (ds.filter (fun x => x ≠ d)) := by
        simp only [removedMap, h, hk, if_false]
      rw [e]
      apply removedMap_not_listed _ _ _ _ (objGet_objSet_same _ _ _)
      · simp
      · intro hnil
        exact hk (by rw [hnil]; rfl)

theorem removedMap_single (m : CategoryMap) (c d : String) (h : objGet m c = some [d]) :
    ∀ p ∈ removedMap m c d, p.1 ≠ c := by
  intro p hp
  have e : removedMap m c d = objDelete (objSet m c []) c := by
    simp [removedMap, h]
  rw [e] at hp
  exact (mem_objDelete _ _ _ hp).2

/-- C3, as stated, fails: a removal for the category `constructor`, which is
not a key of the empty map, is not a no-op: the read finds the inherited
member of `Object.prototype` and the call of `.filter` on it throws.  The same
happens at the second of two identical removals when `constructor` was a key
holding one domain: the first removal deletes the key, the second throws. -/
theorem removeSiteCategory_counterexample :
    objGet blankState.userCategories "constructor" = none ∧
    removeSiteCategory "constructor" "example.com" blankState = .error .typeError ∧
    objGet constructorKeyState.userCategories "constructor" = some ["example.com"] ∧
    (∃ st1 : State,
      removeSiteCategory "constructor" "example.com" constructorKeyState = .ok st1 ∧
      st1.userCategories = [] ∧
      removeSiteCategory "constructor" "example.com" st1 = .error .typeError) := by
  refine ⟨by decide, removeSiteCategory_throws _ _ _ (by decide), by decide, ?_⟩
  refine ⟨_, removeSiteCategory_eq "constructor" "example.com" constructorKeyState (by decide),
    by decide, ?_⟩
  exact removeSiteCategory_throws _ _ _ (by decide)

/-- C3, amended: `removeSiteCategory` prunes, and is idempotent for every
category that is not the name of a member of `Object.prototype`.  When the
category maps to the one-element list `[domain]`, the removal succeeds and the
new map has no entry for the category and agrees with the old one on every
other key.  For a category that is not such a name, in every state, the
removal succeeds, a second identical call succeeds too and leaves the cached
and the stored map of the first call as they are, the stored map is the cached
map after any call, and a removal for an absent category leaves the map as it
is.  A removal of a domain that is not listed under a present category leaves
the map as it is and reports success. -/
theorem removeSiteCategory_prunes_idempotent (category domain : String) (st : State) :
    (objGet st.userCategories category = some [domain] →
      ∃ st1 : State, removeSiteCategory category domain st = .ok st1 ∧
        objGet st1.userCategories category = none ∧
        (∀ p ∈ st1.userCategories, p.1 ≠ category) ∧
        (∀ c, c ≠ category → objGet st1.userCategories c = objGet st.userCategories c)) ∧
    (¬ category ∈ objectPrototypeNames →
      ∃ st1 st2 : State,
        removeSiteCategory category domain st = .ok st1 ∧
        removeSiteCategory category domain st1 = .ok st2 ∧
        st2.userCategories = st1.userCategories ∧
        st2.store = st1.store ∧
        st2.status = "Removed " ++ domain ++ " from " ++ category ++ " category" ∧
        st1.status = "Removed " ++ domain ++ " from " ++ category ++ " category" ∧
        st1.store.userCategories = some st1.userCategories ∧
        (objGet st.userCategories category = none →
          st1.userCategories = st.userCategories)) ∧
    (∀ ds, objGet st.userCategories category = some ds → ¬ domain ∈ ds → ds ≠ [] →
      ∃ st1 : State, removeSiteCategory category domain st = .ok st1 ∧
        st1.userCategories = st.userCategories ∧
        st1.status = "Removed " ++ domain ++ " from " ++ category ++ " category") := by
  refine ⟨?_, ?_, ?_⟩
  · intro h
    refine ⟨_, removeSiteCategory_eq category domain st (objRead_ne_inherited_of_own _ _ _ h),
      objGet_eq_none_of_no_key _ _ (removedMap_single _ _ _ h),
      removedMap_single _ _ _ h, ?_⟩
    intro c hc
    exact removedMap_other _ _ _ _ hc
  · intro hk
    refine ⟨_, _, removeSiteCategory_eq category domain st (objRead_ne_inherited_of_name _ _ hk),
      removeSiteCategory_eq category domain _ (objRead_ne_inherited_of_name _ _ hk),
      removedMap_idem _ _ _, ?_, rfl, rfl, rfl, ?_⟩
    · simp only [removedMap_idem]
    · intro h
      exact removedMap_absent _ _ _ h
  · intro ds h hd hne
    exact ⟨_, removeSiteCategory_eq category domain st (objRead_ne_inherited_of_own _ _ _ h),
      removedMap_not_listed _ _ _ _ h hd hne, rfl⟩

/-- C3, amended, worked example: removing the only domain of `productivity`
drops the key, and removing it once more succeeds and changes nothing. -/
theorem removeSiteCategory_prunes_idempotent_witness :
    (objGet categorisedState.userCategories "productivity" = some ["example.com"] ∧
      ∃ st1 : State,
        removeSiteCategory "productivity" "example.com" categorisedState = .ok st1 ∧
        objGet st1.userCategories "productivity" = none) ∧
    (¬ "productivity" ∈ objectPrototypeNames ∧
      ∃ st1 st2 : State,
        removeSiteCategory "productivity" "example.com" categorisedState = .ok st1 ∧
        removeSiteCategory "productivity" "example.com" st1 = .ok st2 ∧
        st2.userCategories = st1.userCategories) :=
  ⟨⟨by decide,
    match (removeSiteCategory_prunes_idempotent "productivity" "example.com"
      categorisedState).1 (by decide) with
    | ⟨st1, h1, h2, _⟩ => ⟨st1, h1, h2⟩⟩,
   ⟨by decide,
    match (removeSiteCategory_prunes_idempotent "productivity" "example.com"
      categorisedState).2.1 (by decide) with
    | ⟨st1, st2, h1, h2, h3, _⟩ => ⟨st1, st2, h1, h2, h3⟩⟩⟩

/-! ## The invariant of the category map -/

theorem invMap_nil : InvMap [] := by
  intro p hp
  cases hp

theorem invMap_objSet (m : CategoryMap) (c : String) (v : List String)
    (hm : InvMap m) (hne : v ≠ []) (hnd : v.Nodup) : InvMap (objSet m c v) := by
  intro p hp
  rcases mem_objSet m c v p hp with h | h
  · exact hm p h
  · subst h
    exact ⟨hne, hnd⟩

theorem invMap_addedMap (m : CategoryMap) (c d : String) (hm : InvMap m)
    (hd : ¬ d ∈ (objGet m c).getD []) : InvMap (addedMap m c d) := by
  rw [addedMap_eq]
  apply invMap_objSet m c _ hm
  · simp
  · have hold : ((objGet m c).getD []).Nodup := by
      cases h : objGet m c with
      | none => simp
      | some ds => exact (hm _ (mem_of_objGet m c ds h)).2
    rw [List.nodup_append]
    refine ⟨hold, List.nodup_singleton d, ?_⟩
    intro a ha hb
    rw [List.mem_singleton] at hb
    subst hb
    exact hd ha

theorem invMap_removedMap (m : CategoryMap) (c d : String) (hm : InvMap m) :
    InvMap (removedMap m c d) := by
  unfold removedMap
  cases h : objGet m c with
  | none => exact hm
  | some ds =>
    have hnd : (ds.filter (fun x => x ≠ d)).Nodup :=
      List.Nodup.filter _ (hm _ (mem_of_objGet m c ds h)).2
    simp only
    split
    · rename_i hz
      intro p hp
      obtain ⟨hp1, hp2⟩ := mem_objDelete _ _ _ hp
      rcases mem_objSet _ _ _ _ hp1 with h1 | h1
      · exact hm p h1
      · exact absurd (by rw [h1]) hp2
    · rename_i hz
      apply invMap_objSet m c _ hm _ hnd
      intro hnil
      exact hz (by rw [hnil]; rfl)

theorem invState_addSiteCategory (P : Platform) (st st' : State) (h : InvState st)
    (hok : addSiteCategory P st = .ok st') : InvState st' := by
  by_cases hb : jsTrim st.newSiteUrl = ""
  · rw [addSiteCategory_blank P st hb] at hok
    injection hok with hok
    subst hok
    exact h
  · by_cases hd : extractDomain P st.newSiteUrl ∈
        (objGet st.userCategories st.newSiteCategory).getD []
    · rw [addSiteCategory_duplicate P st hb hd] at hok
      injection hok with hok
      subst hok
      exact h
    · by_cases hr : objRead st.userCategories st.newSiteCategory = .inherited
      · rw [addSiteCategory_throws P st hb hr] at hok
        cases hok
      · rw [addSiteCategory_fresh P st hb hr hd] at hok
        injection hok with hok
        subst hok
        exact ⟨invMap_addedMap _ _ _ h.1 hd, invMap_addedMap _ _ _ h.1 hd⟩

theorem invState_removeSiteCategory (category domain : String) (st st' : State)
    (h : InvState st) (hok : removeSiteCategory category domain st = .ok st') :
    InvState st' := by
  by_cases hr : objRead st.userCategories category = .inherited
  · rw [removeSiteCategory_throws category domain st hr] at hok
    cases hok
  · rw [removeSiteCategory_eq category domain st hr] at hok
    injection hok with hok
    subst hok
    exact ⟨invMap_removedMap _ _ _ h.1, invMap_removedMap _ _ _ h.1⟩

theorem invState_step (P : Platform) (st : State) (op : Op) (h : InvState st) :
    InvState (step P st op) := by
  cases op with
  | add category rawUrl =>
    have h0 : InvState { st with newSiteUrl := rawUrl, newSiteCategory := category } := h
    cases hres : addSiteCategory P { st with newSiteUrl := rawUrl, newSiteCategory := category } with
    | ok st' =>
      rw [step_add_ok P st st' category rawUrl hres]
      exact invState_addSiteCategory P _ st' h0 hres
    | error e =>
      have e1 : step P st (.add category rawUrl)
          = { st with newSiteUrl := rawUrl, newSiteCategory := category } := by
        simp only [step, hres]
      rw [e1]
      exact h0
  | remove category domain =>
    cases hres : removeSiteCategory category domain st with
    | ok st' =>
      rw [step_remove_ok P st st' category domain hres]
      exact invState_removeSiteCategory category domain st st' h hres
    | error e =>
      have e1 : step P st (.remove category domain) = st := by
        simp only [step, hres]
      rw [e1]
      exact h
  | reset => exact ⟨invMap_nil, invMap_nil⟩
  | clear confirmed =>
    cases confirmed
    · exact h
    · exact ⟨invMap_nil, invMap_nil⟩

theorem invState_run (P : Platform) (ops : List Op) (st : State) (h : InvState st) :
    InvState (run P st ops) := by
  induction ops generalizing st with
  | nil => exact h
  | cons op rest ih => exact ih (step P st op) (invState_step P st op h)

/-- C4: in every state reached from an empty category map (cached and stored)
by any sequence of add, remove, reset and clear-all actions with arbitrary
arguments, every category present in the cached map and in the stored map has
a non-empty list in which no domain occurs twice.  One domain can still be
listed under two categories: adding the same URL under `productivity` and under
`social` reaches such a state. -/
theorem category_map_invariant (P : Platform) (st : State)
    (hc : st.userCategories = []) (hs : st.store.userCategories.getD [] = []) :
    (∀ ops : List Op,
      (∀ p ∈ (run P st ops).userCategories, p.2 ≠ [] ∧ p.2.Nodup) ∧
      (∀ p ∈ (run P st ops).store.userCategories.getD [], p.2 ≠ [] ∧ p.2.Nodup)) ∧
    (extractDomain P "a" ∈
        (objGet (run P st [.add "productivity" "a", .add "social" "a"]).userCategories
          "productivity").getD [] ∧
      extractDomain P "a" ∈
        (objGet (run P st [.add "productivity" "a", .add "social" "a"]).userCategories
          "social").getD []) := by
  have h0 : InvState st := by
    unfold InvState
    rw [hc, hs]
    exact ⟨invMap_nil, invMap_nil⟩
  refine ⟨fun ops => invState_run P ops st h0, ?_⟩
  have t : jsTrim "a" ≠ "" := by decide
  have k1 : ¬ "productivity" ∈ objectPrototypeNames := by decide
  have k2 : ¬ "social" ∈ objectPrototypeNames := by decide
  have n1 : "social" ≠ "productivity" := by decide
  have n2 : "productivity" ≠ "social" := by decide
  have s1 := step_add_fresh_lookup P st "productivity" "a" t k1 (by simp [hc, objGet])
  have g1 : objGet (step P st (.add "productivity" "a")).userCategories "productivity"
      = some [extractDomain P "a"] :=
    s1.1.trans (by simp [hc, objGet])
  have g2 : objGet (step P st (.add "productivity" "a")).userCategories "social" = none :=
    (s1.2 "social" n1).trans (by simp [hc, objGet])
  have s2 := step_add_fresh_lookup P (step P st (.add "productivity" "a")) "social" "a" t k2
    (by simp [g2])
  have e : run P st [.add "productivity" "a", .add "social" "a"]
      = step P (step P st (.add "productivity" "a")) (.add "social" "a") := rfl
  rw [e]
  constructor
  · have h3 := (s2.2 "productivity" n2).trans g1
    rw [h3]
    simp
  · have h4 := s2.1
    rw [h4]
    simp

/-- C4, worked example on the sample platform, starting with nothing stored. -/
theorem category_map_invariant_witness :
    blankState.userCategories = [] ∧ blankState.store.userCategories.getD [] = [] ∧
    (∀ p ∈ (run samplePlatform blankState
        [.add "productivity" "https://Example.com", .add "social" "example.com",
         .remove "social" "example.com", .reset]).userCategories, p.2 ≠ [] ∧ p.2.Nodup) :=
  ⟨rfl, rfl,
   ((category_map_invariant samplePlatform blankState rfl rfl).1
      [.add "productivity" "https://Example.com", .add "social" "example.com",
       .remove "social" "example.com", .reset]).1⟩

/-! ## The settings store: load, `updateSetting`, `resetToDefaults` -/

/-- C5, as stated, fails: with the stored settings record
`{contentScanning: false}`, which lacks six of the seven fields, the loaded
record has no `scanInterval` (and none of the other five), although the
documented default is 30000. -/
theorem load_backfill_counterexample :
    partialState.store.settings = some [("contentScanning", .bool false)] ∧
    objGet defaultSettings "scanInterval" = some (.num 30000) ∧
    objGet (load partialState).settings "scanInterval" = none ∧
    objGet (load partialState).settings "emotionalAnalysis" = none ∧
    objGet (load partialState).settings "productivityTracking" = none ∧
    objGet (load partialState).settings "biasDetection" = none ∧
    objGet (load partialState).settings "excludeList" = none ∧
    objGet (load partialState).settings "onboardingCompleted" = none ∧
    ¬ (∀ (st : State) (s : Settings), st.store.settings = some s →
        (∃ f, (objGet defaultSettings f).isSome ∧ objGet s f = none) →
        ∀ f v, objGet defaultSettings f = some v →
          objGet (load st).settings f = some ((objGet s f).getD v)) := by
  refine ⟨rfl, by decide, by decide, by decide, by decide, by decide, by decide, by decide, ?_⟩
  intro h
  have h1 := h partialState [("contentScanning", .bool false)] rfl
    ⟨"scanInterval", by decide, by decide⟩ "scanInterval" (.num 30000) (by decide)
  revert h1
  decide

/-- C5, amended: the load effect takes the settings record as a whole.  When
the key `settings` is stored, the loaded record is the stored one, field by
field, so a field missing there is missing after load; when the key is not
stored, the loaded record is the default record, with all seven fields at
their documented defaults. -/
theorem load_settings_whole_record (st : State) :
    (∀ s, st.store.settings = some s →
      (load st).settings = s ∧ ∀ f, objGet (load st).settings f = objGet s f) ∧
    (st.store.settings = none →
      (load st).settings = defaultSettings ∧
      objGet (load st).settings "contentScanning" = some (.bool true) ∧
      objGet (load st).settings "emotionalAnalysis" = some (.bool true) ∧
      objGet (load st).settings "productivityTracking" = some (.bool true) ∧
      objGet (load st).settings "biasDetection" = some (.bool true) ∧
      objGet (load st).settings "excludeList" = some (.strList []) ∧
      objGet (load st).settings "scanInterval" = some (.num 30000) ∧
      objGet (load st).settings "onboardingCompleted" = some (.bool false)) := by
  constructor
  · intro s hs
    have e : (load st).settings = s := by simp [load, hs]
    exact ⟨e, fun f => by rw [e]⟩
  · intro hs
    have e : (load st).settings = defaultSettings := by simp [load, hs]
    rw [e]
    exact ⟨rfl, by decide, by decide, by decide, by decide, by decide, by decide, by decide⟩

/-- C5, amended, worked examples: a stored one-field record is loaded as it is;
with nothing stored the default interval is loaded. -/
theorem load_settings_whole_record_witness :
    (partialState.store.settings = some [("contentScanning", .bool false)] ∧
      (load partialState).settings = [("contentScanning", .bool false)]) ∧
    (blankState.store.settings = none ∧
      objGet (load blankState).settings "scanInterval" = some (.num 30000)) :=
  ⟨⟨rfl, ((load_settings_whole_record partialState).1 _ rfl).1⟩,
   ⟨rfl, ((load_settings_whole_record blankState).2 rfl).2.2.2.2.2.2.1⟩⟩

/-- C6, as stated, fails: from a state whose cached and stored category map is
the non-empty map `{productivity: ["example.com"]}`, `resetToDefaults` leaves
both maps empty. -/
theorem resetToDefaults_counterexample :
    categorisedState.userCategories = [("productivity", ["example.com"])] ∧
    categorisedState.store.userCategories = some [("productivity", ["example.com"])] ∧
    (resetToDefaults categorisedState).userCategories = [] ∧
    (resetToDefaults categorisedState).store.userCategories = some [] ∧
    (resetToDefaults categorisedState).userCategories ≠ categorisedState.userCategories ∧
    (resetToDefaults categorisedState).store.userCategories
      ≠ categorisedState.store.userCategories := by
  decide

/-- C6, amended: `resetToDefaults` stores the default settings record and also
empties the category map, cached and stored; the externally owned keys are not
touched, one storage write is made, and a load afterwards returns the default
settings record and the empty map. -/
theorem resetToDefaults_resets_settings_and_categories (st : State) :
    (resetToDefaults st).userCategories = [] ∧
    (resetToDefaults st).store.userCategories = some [] ∧
    (resetToDefaults st).settings = defaultSettings ∧
    (resetToDefaults st).store.settings = some defaultSettings ∧
    (resetToDefaults st).store.events = st.store.events ∧
    (resetToDefaults st).store.contentAnalyses = st.store.contentAnalyses ∧
    (resetToDefaults st).setCalls = st.setCalls + 1 ∧
    (resetToDefaults st).status = "Settings reset to defaults" ∧
    (load (resetToDefaults st)).settings = defaultSettings ∧
    (load (resetToDefaults st)).userCategories = [] :=
  ⟨rfl, rfl, rfl, rfl, rfl, rfl, rfl, rfl, rfl, rfl⟩

theorem load_updateSetting_settings (key : String) (value : JsVal) (st : State) :
    (load (updateSetting key value st)).settings = objSet st.settings key value := rfl

/-- C7: `updateSetting key value` followed by a load gives a record whose field
`key` is `value` and whose other fields are those of the record cached before
the update; in particular, when that cached record is the stored record `s`
(the state after a load), the other fields are those of `s`.  The update makes
one storage write to the key `settings`; the stored and the cached category
map are left as they are. -/
theorem updateSetting_then_load (key : String) (value : JsVal) (st : State) :
    objGet (load (updateSetting key value st)).settings key = some value ∧
    (∀ k, k ≠ key →
      objGet (load (updateSetting key value st)).settings k = objGet st.settings k) ∧
    (∀ s, st.store.settings = some s → st.settings = s → ∀ k, k ≠ key →
      objGet (load (updateSetting key value st)).settings k = objGet s k) ∧
    (∀ st0 : State, ∀ s, st0.store.settings = some s →
      (load st0).store.settings = some s ∧ (load st0).settings = s) ∧
    (updateSetting key value st).store.userCategories = st.store.userCategories ∧
    (updateSetting key value st).userCategories = st.userCategories ∧
    (updateSetting key value st).store.events = st.store.events ∧
    (updateSetting key value st).store.contentAnalyses = st.store.contentAnalyses ∧
    (updateSetting key value st).setCalls = st.setCalls + 1 ∧
    (updateSetting key value st).status = "Settings saved" ∧
    (load (updateSetting key value st)).store.userCategories = st.store.userCategories := by
  refine ⟨?_, ?_, ?_, ?_, rfl, rfl, rfl, rfl, rfl, rfl, rfl⟩
  · rw [load_updateSetting_settings]
    exact objGet_objSet_same _ _ _
  · intro k hk
    rw [load_updateSetting_settings]
    exact objGet_objSet_other _ _ _ _ hk
  · intro s _ hc k hk
    rw [load_updateSetting_settings, ← hc]
    exact objGet_objSet_other _ _ _ _ hk
  · intro st0 s hs
    exact ⟨hs, by simp [load, hs]⟩

/-- C7, worked example: after loading an empty storage area, setting
`scanInterval` to 60000 and loading again, the interval is 60000 and
`contentScanning` is still `true`. -/
theorem updateSetting_then_load_witness :
    objGet (load (updateSetting "scanInterval" (.num 60000) (load blankState))).settings
      "scanInterval" = some (.num 60000) ∧
    "contentScanning" ≠ "scanInterval" ∧
    objGet (load (updateSetting "scanInterval" (.num 60000) (load blankState))).settings
      "contentScanning" = objGet (load blankState).settings "contentScanning" :=
  ⟨(updateSetting_then_load "scanInterval" (.num 60000) (load blankState)).1,
   by decide,
   (updateSetting_then_load "scanInterval" (.num 60000) (load blankState)).2.1
     "contentScanning" (by decide)⟩

/-! ## The exclude list text: `split`, `trim`, `join` -/

theorem trimChars_eq (l : List Char) :
    trimChars l = (l.dropWhile isJsWhiteSpace).rdropWhile isJsWhiteSpace := rfl

theorem dropWhile_head_not (f : Char → Bool) (l : List Char) (x : Char) (r : List Char)
    (h : l.dropWhile f = x :: r) : f x = false := by
  induction l with
  | nil => simp at h
  | cons a t ih =>
    by_cases ha : f a = true
    · rw [List.dropWhile_cons_of_pos ha] at h
      exact ih h
    · rw [List.dropWhile_cons_of_neg ha] at h
      injection h with h1 h2
      subst h1
      simpa using ha

theorem trimChars_within (l : List Char) : trimChars l <:+: l := by
  rw [trimChars_eq]
  exact (List.rdropWhile_prefix _ _).isInfix.trans (List.dropWhile_suffix _).isInfix

theorem trimChars_idem (l : List Char) : trimChars (trimChars l) = trimChars l := by
  have key : (trimChars l).dropWhile isJsWhiteSpace = trimChars l := by
    cases hq : trimChars l with
    | nil => rfl
    | cons x q =>
      have hpre : trimChars l <+: l.dropWhile isJsWhiteSpace := by
        rw [trimChars_eq]
        exact List.rdropWhile_prefix _ _
      rw [hq] at hpre
      obtain ⟨r, hr⟩ := hpre
      have hx : isJsWhiteSpace x = false :=
        dropWhile_head_not _ l x (q ++ r) (by rw [← hr]; rfl)
      exact List.dropWhile_cons_of_neg (by simp [hx])
  conv_lhs => rw [trimChars_eq, key, trimChars_eq]
  rw [List.rdropWhile_idempotent]
  rfl

theorem trimChars_nil : trimChars [] = [] := rfl

theorem splitChars_ne_nil (sep : List Char) (k : Nat) (t : List Char) :
    splitChars sep k t ≠ [] := by
  induction t generalizing k with
  | nil => cases k <;> simp [splitChars]
  | cons c rest ih =>
    cases k with
    | succ k => simpa [splitChars] using ih k
    | zero =>
      rw [splitChars]
      split
      · simp
      · cases h : splitChars sep 0 rest with
        | nil => simp [consHead]
        | cons p ps => simp [consHead]

/-- The first piece of a split is a prefix of the text. -/
theorem splitChars_first_piece (sep : List Char) (t : List Char) :
    ∃ p ps, splitChars sep 0 t = p :: ps ∧ p <+: t := by
  induction t with
  | nil => exact ⟨[], [], by simp [splitChars], List.prefix_refl _⟩
  | cons c rest ih =>
    obtain ⟨p, ps, hp, hpre⟩ := ih
    rw [splitChars]
    split
    · exact ⟨[], _, rfl, List.nil_prefix⟩
    · refine ⟨c :: p, ps, by rw [hp]; rfl, ?_⟩
      obtain ⟨r, hr⟩ := hpre
      exact ⟨r, by rw [← hr]; rfl⟩

/-- No piece of a split contains the separator. -/
theorem splitChars_piece_no_sep (sep : List Char) (hsep : sep ≠ []) (k : Nat) (t : List Char) :
    ∀ p ∈ splitChars sep k t, ¬ sep <:+: p := by
  induction t generalizing k with
  | nil =>
    intro p hp
    have hp' : p = [] := by cases k <;> simpa [splitChars] using hp
    subst hp'
    intro h
    exact hsep (List.eq_nil_of_infix_nil h)
  | cons c rest ih =>
    cases k with
    | succ k =>
      intro p hp
      rw [splitChars] at hp
      exact ih k p hp
    | zero =>
      intro p hp
      rw [splitChars] at hp
      split at hp
      · rcases List.mem_cons.mp hp with h | h
        · subst h
          intro h
          exact hsep (List.eq_nil_of_infix_nil h)
        · exact ih _ p h
      · rename_i hpre
        obtain ⟨p0, ps, hsplit, hp0⟩ := splitChars_first_piece sep rest
        rw [hsplit] at hp
        rcases List.mem_cons.mp hp with h | h
        · subst h
          intro hin
          rcases List.infix_cons_iff.mp hin with h1 | h1
          · apply hpre
            rw [List.isPrefixOf_iff_prefix]
            obtain ⟨r, hr⟩ := hp0
            exact h1.trans ⟨r, by rw [← hr]; rfl⟩
          · exact ih 0 p0 (by rw [hsplit]; exact List.mem_cons_self _ _) h1
        · exact ih 0 p (by rw [hsplit]; exact List.mem_cons_of_mem _ h)

/-- A text without the two-character separator is its own single piece. -/
theorem splitChars_no_sep (a b : Char) (e : List Char) (he : ¬ [a, b] <:+: e) :
    splitChars [a, b] 0 e = [e] := by
  induction e with
  | nil => simp [splitChars]
  | cons c e ih =>
    have hpre : ¬ ([a, b].isPrefixOf (c :: e) = true) := by
      rw [List.isPrefixOf_iff_prefix]
      exact fun h => he h.isInfix
    rw [splitChars, if_neg hpre, ih (fun h => he (List.infix_cons h))]
    rfl

/-- A text without the separator, followed by the separator, is split off as
one piece. -/
theorem splitChars_append_sep (a b : Char) (hab : a ≠ b) (e rest : List Char)
    (he : ¬ [a, b] <:+: e) :
    splitChars [a, b] 0 (e ++ [a, b] ++ rest) = e :: splitChars [a, b] 0 rest := by
  induction e with
  | nil => simp [splitChars]
  | cons c e ih =>
    have hpre : ¬ ([a, b].isPrefixOf (c :: (e ++ [a, b] ++ rest)) = true) := by
      rw [List.isPrefixOf_iff_prefix]
      intro h
      cases e with
      | nil =>
        obtain ⟨r, hr⟩ := h
        simp at hr
        exact hab (hr.2.1.symm)
      | cons x e' =>
        obtain ⟨r, hr⟩ := h
        simp at hr
        apply he
        rw [← hr.1, ← hr.2.1]
        exact ⟨[], e', by simp⟩
    have e1 : (c :: e) ++ [a, b] ++ rest = c :: (e ++ [a, b] ++ rest) := by simp
    rw [e1, splitChars, if_neg hpre, ih (fun h => he (List.infix_cons h))]
    rfl

theorem splitChars_joinChars (a b : Char) (hab : a ≠ b) (L : List (List Char))
    (hL : L ≠ []) (hno : ∀ e ∈ L, ¬ [a, b] <:+: e) :
    splitChars [a, b] 0 (joinChars [a, b] L) = L := by
  induction L with
  | nil => exact absurd rfl hL
  | cons x rest ih =>
    cases rest with
    | nil => exact splitChars_no_sep a b x (hno x (by simp))
    | cons y rest =>
      rw [joinChars, splitChars_append_sep a b hab x _ (hno x (by simp)),
        ih (by simp) (fun e he => hno e (List.mem_cons_of_mem _ he))]

/-- Splitting a joined list and cleaning the pieces, when no entry contains
the separator. -/
theorem decodeChars_joinChars (a b : Char) (hab : a ≠ b) (L : List (List Char))
    (hno : ∀ e ∈ L, ¬ [a, b] <:+: e) :
    decodeChars [a, b] (joinChars [a, b] L) = (L.map trimChars).filter (fun x => x ≠ []) := by
  cases L with
  | nil => simp [decodeChars, joinChars, splitChars, trimChars_nil]
  | cons x rest =>
    unfold decodeChars
    rw [splitChars_joinChars a b hab _ (by simp) hno]

theorem decodeChars_entry (sep : List Char) (hsep : sep ≠ []) (t e : List Char)
    (he : e ∈ decodeChars sep t) : e ≠ [] ∧ trimChars e = e ∧ ¬ sep <:+: e := by
  unfold decodeChars at he
  rw [List.mem_filter, List.mem_map] at he
  obtain ⟨⟨p, hp, hpe⟩, hne⟩ := he
  refine ⟨by simpa using hne, ?_, ?_⟩
  · rw [← hpe, trimChars_idem]
  · intro h
    apply splitChars_piece_no_sep sep hsep 0 t p hp
    rw [← hpe] at h
    exact h.trans (trimChars_within p)

theorem decodeChars_roundtrip (a b : Char) (hab : a ≠ b) (t : List Char) :
    decodeChars [a, b] (joinChars [a, b] (decodeChars [a, b] t)) = decodeChars [a, b] t := by
  have hent := decodeChars_entry [a, b] (by simp) t
  rw [decodeChars_joinChars a b hab _ (fun e he => (hent e he).2.2)]
  have hmap : (decodeChars [a, b] t).map trimChars = decodeChars [a, b] t := by
    conv_rhs => rw [← List.map_id (decodeChars [a, b] t)]
    apply List.map_congr_left
    intro e he
    exact (hent e he).2.1
  rw [hmap, List.filter_eq_self]
  intro e he
  simpa using (hent e he).1

/-! ## From character lists to strings -/

theorem lineSep_data : lineSep.data = ['\\', 'n'] := rfl

theorem clean_map_mk (ps : List (List Char)) :
    ((ps.map String.mk).map jsTrim).filter (fun x => x ≠ "")
      = ((ps.map trimChars).filter (fun x => x ≠ [])).map String.mk := by
  induction ps with
  | nil => rfl
  | cons p ps ih =>
    have hp : jsTrim (String.mk p) = String.mk (trimChars p) := rfl
    simp only [List.map_cons, hp]
    by_cases h : trimChars p = []
    · have h' : (String.mk (trimChars p)) = "" := by rw [h]
      rw [List.filter_cons_of_neg (by simp [h']), List.filter_cons_of_neg (by simp [h])]
      exact ih
    · have h' : (String.mk (trimChars p)) ≠ "" := by
        intro e
        apply h
        have := congrArg String.data e
        simpa using this
      rw [List.filter_cons_of_pos (by simp [h']), List.filter_cons_of_pos (by simp [h])]
      simp only [List.map_cons, ih]

theorem map_mk_map_data (L : List String) : (L.map String.data).map String.mk = L := by
  induction L with
  | nil => rfl
  | cons x L ih => simp [ih]

theorem map_data_map_mk (D : List (List Char)) : (D.map String.mk).map String.data = D := by
  induction D with
  | nil => rfl
  | cons x D ih => simp [ih]

theorem decode_eq (t : String) :
    decode t = (decodeChars lineSep.data t.data).map String.mk := by
  unfold decode jsSplit decodeChars
  exact clean_map_mk _

theorem encode_data (L : List String) :
    (encode L).data = joinChars lineSep.data (L.map String.data) := rfl

theorem decode_encode_eq (L : List String) (hno : ∀ e ∈ L, ¬ lineSep.data <:+: e.data) :
    decode (encode L) = (L.map jsTrim).filter (fun x => x ≠ "") := by
  rw [decode_eq, encode_data, lineSep_data,
    decodeChars_joinChars '\\' 'n' (by decide) _ (by
      intro e he
      rw [List.mem_map] at he
      obtain ⟨x, hx, hxe⟩ := he
      rw [← hxe, ← lineSep_data]
      exact hno x hx),
    ← clean_map_mk, map_mk_map_data]

/-! ## The exclude list codec: claims -/

/-- C8: the code does not cut the text at line feeds.  The text made of
`a.com`, one line-feed character and `b.com` is decoded to a single entry that
still contains the line feed, not to the two entries `a.com` and `b.com`;
the text is cut only where it contains a backslash followed by the letter n. -/
theorem decode_line_feed_not_split :
    decode "a.com\nb.com" = ["a.com\nb.com"] ∧
    decode "a.com\nb.com" ≠ ["a.com", "b.com"] ∧
    decode "a.com\\nb.com" = ["a.com", "b.com"] := by
  decide

/-- C9: decoding is idempotent through encoding: for every text `t`,
`decode (encode (decode t)) = decode t`, with `encode` the join that fills the
text box and `decode` the split, trim and filter of `saveExcludeList`. -/
theorem decode_encode_decode (t : String) : decode (encode (decode t)) = decode t := by
  rw [decode_eq (encode (decode t)), encode_data, decode_eq t, map_data_map_mk, lineSep_data,
    decodeChars_roundtrip '\\' 'n' (by decide)]

/-- C10, as stated, fails: the list with the single entry ` a` (a space, then
`a`) has no empty and no whitespace-only entry, yet it comes back as `a`: the
entry is trimmed.  An entry that contains the separator comes back as two
entries. -/
theorem decode_encode_counterexample :
    (∀ e ∈ [" a"], e ≠ "" ∧ jsTrim e ≠ "") ∧
    decode (encode [" a"]) = ["a"] ∧
    decode (encode [" a"]) ≠ [" a"] ∧
    (∀ e ∈ ["a\\nb"], e ≠ "" ∧ jsTrim e ≠ "") ∧
    decode (encode ["a\\nb"]) = ["a", "b"] := by
  decide

/-- C10, amended: for every list whose entries do not contain the separator,
`decode (encode L)` is `L` with every entry trimmed and the entries that are
empty after trimming (the empty and the whitespace-only ones) removed, order
and duplicates kept; if moreover every entry is non-empty and has no white
space at either end, `decode (encode L) = L`. -/
theorem decode_encode_trims_and_drops (L : List String)
    (hno : ∀ e ∈ L, ¬ lineSep.data <:+: e.data) :
    decode (encode L) = (L.map jsTrim).filter (fun x => x ≠ "") ∧
    ((∀ e ∈ L, e ≠ "" ∧ jsTrim e = e) → decode (encode L) = L) := by
  refine ⟨decode_encode_eq L hno, ?_⟩
  intro h
  rw [decode_encode_eq L hno]
  have hmap : L.map jsTrim = L := by
    conv_rhs => rw [← List.map_id L]
    apply List.map_congr_left
    intro e he
    exact (h e he).2
  rw [hmap, List.filter_eq_self]
  intro e he
  simpa using (h e he).1

/-- C10, amended, worked example: a blank entry is dropped, a padded entry is
trimmed, a repeated entry is kept. -/
theorem decode_encode_trims_and_drops_witness :
    (∀ e ∈ ["a.com", " b.com ", "  ", "a.com"], ¬ lineSep.data <:+: e.data) ∧
    decode (encode ["a.com", " b.com ", "  ", "a.com"]) = ["a.com", "b.com", "a.com"] :=
  ⟨by decide,
   (decode_encode_trims_and_drops ["a.com", " b.com ", "  ", "a.com"] (by decide)).1.trans
     (by decide)⟩

/-! ## Export and domain extraction: claims -/

/-- C11, as stated, fails: with none of the four keys stored, the snapshot
built by `exportData` has the empty record as its `settings`, not the default
settings record; no field, `scanInterval` for one, is present in it. -/
theorem exportData_empty_store_counterexample :
    blankState.store = emptyStore ∧
    (exportData "2026-01-02T03:04:05.000Z" "2026-01-02T03:04:05.000Z"
      blankState).1.1.settings = [] ∧
    (exportData "2026-01-02T03:04:05.000Z" "2026-01-02T03:04:05.000Z"
      blankState).1.1.settings ≠ defaultSettings ∧
    objGet (exportData "2026-01-02T03:04:05.000Z" "2026-01-02T03:04:05.000Z"
      blankState).1.1.settings "scanInterval" = none ∧
    objGet defaultSettings "scanInterval" = some (.num 30000) := by
  decide

/-- C11, amended: when none of the keys `events`, `contentAnalyses`, `settings`,
`userCategories` is stored, the snapshot built by `exportData` has empty
`events`, empty `contentAnalyses`, the empty category map and the empty record
as `settings`, and carries the time stamp it was given; the storage area is
left as it is, no storage write is made, and the cached settings and category
map are not changed. -/
theorem exportData_empty_store (now nowFile : String) (st : State)
    (he : st.store.events = none) (hc : st.store.contentAnalyses = none)
    (hs : st.store.settings = none) (hu : st.store.userCategories = none) :
    (exportData now nowFile st).1.1.events = [] ∧
    (exportData now nowFile st).1.1.contentAnalyses = [] ∧
    (exportData now nowFile st).1.1.userCategories = [] ∧
    (exportData now nowFile st).1.1.settings = [] ∧
    (exportData now nowFile st).1.1.exportDate = now ∧
    (exportData now nowFile st).2.store = st.store ∧
    (exportData now nowFile st).2.setCalls = st.setCalls ∧
    (exportData now nowFile st).2.settings = st.settings ∧
    (exportData now nowFile st).2.userCategories = st.userCategories ∧
    (exportData now nowFile st).2.status = "Data exported successfully" := by
  refine ⟨?_, ?_, ?_, ?_, rfl, rfl, rfl, rfl, rfl, rfl⟩
  · simp [exportData, exportedData, he]
  · simp [exportData, exportedData, hc]
  · simp [exportData, exportedData, hu]
  · simp [exportData, exportedData, hs]

/-- C11, amended, worked example: an export from the blank state, whose
storage area is empty. -/
theorem exportData_empty_store_witness :
    (blankState.store.events = none ∧ blankState.store.contentAnalyses = none ∧
      blankState.store.settings = none ∧ blankState.store.userCategories = none) ∧
    (exportData "2026-01-02T03:04:05.000Z" "2026-01-02T03:04:05.000Z"
      blankState).1.1.settings = [] ∧
    (exportData "2026-01-02T03:04:05.000Z" "2026-01-02T03:04:05.000Z"
      blankState).2.store = blankState.store :=
  ⟨⟨rfl, rfl, rfl, rfl⟩,
   (exportData_empty_store "2026-01-02T03:04:05.000Z" "2026-01-02T03:04:05.000Z"
      blankState rfl rfl rfl rfl).2.2.2.1,
   (exportData_empty_store "2026-01-02T03:04:05.000Z" "2026-01-02T03:04:05.000Z"
      blankState rfl rfl rfl rfl).2.2.2.2.2.1⟩

/-- What `extractDomain` computes, for every platform and every input: the
host of the parsed address, or the lower-cased input when parsing fails; the
address parsed is the input itself when it starts with the four letters
`http`, and the input after `https://` otherwise. -/
theorem extractDomain_eq (P : Platform) (url : String) :
    extractDomain P url
      = (P.urlHostname (if jsStartsWith url "http" then url else "https://" ++ url)).getD
          (P.toLowerCase url) := by
  unfold extractDomain
  cases P.urlHostname (if jsStartsWith url "http" = true then url else "https://" ++ url) <;> rfl

/-- C12: the code tests for the four letters `http`, not for a scheme.  The
input `httpbin.org/get` starts with neither `http://` nor `https://`, yet it is
handed to the parser as it stands, without `https://` in front; that parse
fails and the result is the lower-cased input `httpbin.org/get`, not the host
`httpbin.org` of the address with `https://` prepended. -/
theorem extractDomain_httpbin_not_prepended :
    jsStartsWith "httpbin.org/get" "http://" = false ∧
    jsStartsWith "httpbin.org/get" "https://" = false ∧
    jsStartsWith "httpbin.org/get" "http" = true ∧
    httpbinPlatform.urlHostname "httpbin.org/get" = none ∧
    httpbinPlatform.urlHostname ("https://" ++ "httpbin.org/get") = some "httpbin.org" ∧
    extractDomain httpbinPlatform "httpbin.org/get" = "httpbin.org/get" ∧
    extractDomain httpbinPlatform "httpbin.org/get" ≠ "httpbin.org" := by
  decide

end Options
